import Mathlib

/-!
# Verification of the `sarray.c` string-array module

Shallow embedding of the string-array ("SARRAY") module of
`plotlib-1.2/src/sarray.c`, together with proofs of the specified
properties.  A C string is modelled as a list of bytes (`Nat` values;
a representable C string has bytes in `1..255`, since a NUL byte
terminates the string).  Streams are modelled as lists of bytes.
-/

/-- Byte string: the contents of one C string (no terminating NUL). -/
abbrev CStr := List Nat

/-- Predicate for a byte representable inside a C string: nonzero and below 256. -/
def validByte (b : Nat) : Prop := 0 < b ∧ b < 256

/-- Predicate for a representable C string: every byte nonzero and below 256. -/
def validStr (s : CStr) : Prop := ∀ b ∈ s, validByte b

instance : DecidablePred validByte := fun b => by unfold validByte; infer_instance

instance : DecidablePred validStr := fun s => by unfold validStr; infer_instance

/-! ## Serialization (sarrayWriteStream / sarrayReadStream)

The on-disk format written by `sarrayWriteStream` is

```
\nSarray Version <V>\n
Number of strings = <N>\n
  <i>[<len>]:  <string>\n      (N times)
\n
```
-/

/-- Version constant `SARRAY_VERSION_NUMBER`.  Modelled from the spec:
the constant lives in `allheaders.h`, which is not under `src/`; the
spec only requires a specific version token that must match on read. -/
def SARRAY_VERSION_NUMBER : Int := 1

/-- Scratch-buffer constant `L_BUF_SIZE` from `sarray.c`. -/
def L_BUF_SIZE : Nat := 512

/-- Decimal digits (ASCII bytes) of a natural number, fuel-structured so
that it computes by kernel reduction; mirrors `fprintf` `%d` output for
nonnegative values. -/
def decDigitsCore : Nat → Nat → List Nat
  | 0, _ => []
  | fuel + 1, n => if n < 10 then [48 + n] else decDigitsCore fuel (n / 10) ++ [48 + n % 10]

/-- Decimal ASCII representation of `n` (the fuel `n + 1` always suffices). -/
def decDigits (n : Nat) : List Nat := decDigitsCore (n + 1) n

/-- ASCII bytes of the literal `Sarray`. -/
def litSarray : List Nat := [83, 97, 114, 114, 97, 121]

/-- ASCII bytes of the literal `Version`. -/
def litVersion : List Nat := [86, 101, 114, 115, 105, 111, 110]

/-- ASCII bytes of the literal `Number`. -/
def litNumber : List Nat := [78, 117, 109, 98, 101, 114]

/-- ASCII bytes of the literal `of`. -/
def litOf : List Nat := [111, 102]

/-- ASCII bytes of the literal `strings`. -/
def litStrings : List Nat := [115, 116, 114, 105, 110, 103, 115]

/-- One serialized entry `  <i>[<len>]:  <string>\n` as written by
`fprintf(fp, "  %d[%d]:  %s\n", i, len, sa->array[i])`. -/
def entryLine (i : Nat) (s : CStr) : List Nat :=
  [32, 32] ++ decDigits i ++ [91] ++ decDigits s.length ++ [93, 58] ++ ([32, 32] ++ (s ++ [10]))

/-- The serialized entries of the strings of `sa`, numbering from `i`;
mirrors the writer loop `for (i = 0; i < n; i++)`. -/
def entriesFrom : Nat → List CStr → List Nat
  | _, [] => []
  | i, s :: t => entryLine i s ++ entriesFrom (i + 1) t

/-- Byte stream produced by `sarrayWriteStream` for the string array `sa`. -/
def sarrayWriteStream (sa : List CStr) : List Nat :=
  [10] ++ litSarray ++ [32] ++ litVersion ++ [32] ++ decDigits SARRAY_VERSION_NUMBER.toNat
    ++ [10]
  ++ litNumber ++ [32] ++ litOf ++ [32] ++ litStrings ++ [32] ++ [61, 32]
    ++ decDigits sa.length ++ [10]
  ++ entriesFrom 0 sa ++ [10]

/-- Whitespace test matching C `isspace` in the default locale
(space, tab, newline, vertical tab, form feed, carriage return),
which governs `fscanf` whitespace directives. -/
def isSpaceByte (b : Nat) : Bool :=
  b == 32 || b == 9 || b == 10 || b == 11 || b == 12 || b == 13

/-- ASCII decimal digit test. -/
def isDigitByte (b : Nat) : Bool := decide (48 ≤ b ∧ b ≤ 57)

/-- Consume leading whitespace, as an `fscanf` whitespace directive does. -/
def skipWs (s : List Nat) : List Nat := s.dropWhile isSpaceByte

/-- Match the exact literal bytes `p` at the head of the stream,
as consecutive non-whitespace literal characters of an `fscanf` format do;
`none` on a matching failure. -/
def matchLit : List Nat → List Nat → Option (List Nat)
  | [], s => some s
  | c :: p, b :: s => if b = c then matchLit p s else none
  | _ :: _, [] => none

/-- Consume a maximal run of decimal digits, accumulating their value;
returns the value together with the unread rest of the stream. -/
def takeDigits : List Nat → Nat → Nat × List Nat
  | [], acc => (acc, [])
  | b :: s, acc => if isDigitByte b then takeDigits s (acc * 10 + (b - 48)) else (acc, b :: s)

/-- Conversion part of an `fscanf` `%d` directive, applied after the
leading whitespace has been skipped: optional minus sign, then at least
one digit; on a matching failure no value is assigned and the stream is
returned unconsumed. -/
def parseIntCore : List Nat → Option Int × List Nat
  | [] => (none, [])
  | b :: s2 =>
    if b = 45 then
      match s2 with
      | c :: _ =>
        if isDigitByte c then
          let p := takeDigits s2 0
          (some (-(p.1 : Int)), p.2)
        else (none, b :: s2)
      | [] => (none, b :: s2)
    else if isDigitByte b then
      let p := takeDigits (b :: s2) 0
      (some ((p.1 : Int)), p.2)
    else (none, b :: s2)

/-- Model of an `fscanf` `%d` conversion: skip whitespace, then convert. -/
def parseIntW (s : List Nat) : Option Int × List Nat := parseIntCore (skipWs s)

/-- Model of `fscanf(fp, "\nSarray Version %d\n", &version)`:
returns the version and the stream after the trailing whitespace
directive, or `none` when the scan assigns no value (`ret != 1`). -/
def scanVersion (s : List Nat) : Option (Int × List Nat) :=
  match matchLit litSarray (skipWs s) with
  | none => none
  | some s1 =>
    match matchLit litVersion (skipWs s1) with
    | none => none
    | some s2 =>
      match parseIntW s2 with
      | (none, _) => none
      | (some v, s3) => some (v, skipWs s3)

/-- Model of `fscanf(fp, "Number of strings = %d\n", &n)`.  The C code
does not check the return value; on a matching failure it goes on to read
the uninitialized `n` (undefined behavior), which this model maps to a
`none` result of the whole read. -/
def scanCount (s : List Nat) : Option (Int × List Nat) :=
  match matchLit litNumber s with
  | none => none
  | some s1 =>
    match matchLit litOf (skipWs s1) with
    | none => none
    | some s2 =>
      match matchLit litStrings (skipWs s2) with
      | none => none
      | some s3 =>
        match matchLit [61] (skipWs s3) with
        | none => none
        | some s4 =>
          match parseIntW s4 with
          | (none, _) => none
          | (some n, s5) => some (n, skipWs s5)

/-- Model of `fscanf(fp, "%d[%d]:", &index, &size)` inside the reader
loop.  The first component is the value assigned to `size` (if any);
`index` is never used by the caller.  Literal mismatches after a
successful `%d` leave `size` assigned and the offending byte unread,
exactly as `fscanf` does. -/
def scanIdxSize (s : List Nat) : Option Int × List Nat :=
  match parseIntW s with
  | (none, s1) => (none, s1)
  | (some _, s1) =>
    match s1 with
    | 91 :: s2 =>
      match parseIntW s2 with
      | (none, s3) => (none, s3)
      | (some sz, s3) =>
        match s3 with
        | 93 :: 58 :: s4 => (some sz, s4)
        | 93 :: s4 => (some sz, s4)
        | _ => (some sz, s3)
    | _ => (none, s1)

/-- Reader loop of `sarrayReadStream` (`for (i = 0; i < n; i++)`), carrying
the stream, the scratch buffer and its size, the last value assigned to
`size` (the C code never checks the `fscanf` result, so a failed scan
reuses the previous value; reading it while still uninitialized is
undefined behavior, mapped to `none`), and the strings read so far.
`fread` delivers `min (size + 3) remaining` bytes into the buffer, the
byte at offset `size + 2` is overwritten with NUL, and the string is the
NUL-terminated content starting at offset 2. -/
def readEntries : List Nat → List Nat → Nat → Option Int → List CStr → Nat → Option (List CStr)
  | _, _, _, _, acc, 0 => some acc
  | s, buf, bufsize, szOld, acc, k + 1 =>
    match scanIdxSize s with
    | (szNew, s1) =>
      match (match szNew with | some v => some v | none => szOld) with
      | none => none
      | some size =>
        if size < 0 then none
        else
          let sizeN := size.toNat
          let expand := size > (bufsize : Int) - 5
          let bufsize1 := if expand then 3 * sizeN / 2 else bufsize
          let buf1 := if expand then List.replicate (3 * sizeN / 2) 0 else buf
          let got := min (sizeN + 3) s1.length
          let buf2 := s1.take got ++ buf1.drop got
          let s2 := s1.drop got
          let buf3 := buf2.set (sizeN + 2) 0
          let str := (buf3.drop 2).takeWhile (fun b => b != 0)
          readEntries s2 buf3 bufsize1 (some size) (acc ++ [str]) k

/-- Model of `sarrayReadStream`: parse the header and version (error when
they do not match), then the declared number of strings, then run the
reader loop with a zeroed scratch buffer of `L_BUF_SIZE + 1` bytes. -/
def sarrayReadStream (s : List Nat) : Option (List CStr) :=
  match scanVersion s with
  | none => none
  | some (v, s1) =>
    if v ≠ SARRAY_VERSION_NUMBER then none
    else
      match scanCount s1 with
      | none => none
      | some (n, s2) =>
        readEntries s2 (List.replicate (L_BUF_SIZE + 1) 0) (L_BUF_SIZE + 1) none [] n.toNat

/-! ## Lexical comparison and shell sort (stringCompareLexical / sarraySort) -/

/-- Value of a byte when stored in a C `char` and promoted to `int`:
`char` is signed on the x86-64 target, so bytes of 128 and above are
negative. -/
def charVal (b : Nat) : Int := if b < 128 then (b : Int) else (b : Int) - 256

/-- Model of `stringCompareLexical`: walk the common prefix; at the first
differing byte return 1 exactly when the first string's byte is greater
as a (signed) `char`; when the common prefix is exhausted, return 1
exactly when the first string is strictly longer. -/
def stringCompareLexical : List Nat → List Nat → Nat
  | a :: s, b :: t =>
    if a = b then stringCompareLexical s t
    else if charVal a > charVal b then 1 else 0
  | _ :: _, [] => 1
  | [], _ => 0

/-- Sort-order constant.  Modelled from the spec: the enum lives in
`allheaders.h`, which is not under `src/`; only distinctness of the two
values matters. -/
def L_SORT_INCREASING : Nat := 1

/-- Sort-order constant, see `L_SORT_INCREASING`. -/
def L_SORT_DECREASING : Nat := 2

/-- One comparison/swap of `array[j]` and `array[j + gap]` from the shell
sort inner loop of `sarraySort`. -/
def maybeSwap (sortorder : Nat) (arr : List CStr) (j gap : Nat) : List CStr :=
  let a := arr.getD j []
  let b := arr.getD (j + gap) []
  if (sortorder = L_SORT_INCREASING ∧ stringCompareLexical a b = 1)
      ∨ (sortorder = L_SORT_DECREASING ∧ stringCompareLexical b a = 1)
  then (arr.set j b).set (j + gap) a
  else arr

/-- Inner loop `for (j = i - gap; j >= 0; j -= gap)` of the shell sort,
fuel-structured (the gap is `g + 1`, so the fuel `j + 1` always
suffices). -/
def innerPassCore : Nat → Nat → Nat → List CStr → Nat → List CStr
  | 0, _, _, arr, _ => arr
  | fuel + 1, sortorder, g, arr, j =>
    let gap := g + 1
    let arr1 := maybeSwap sortorder arr j gap
    if j < gap then arr1 else innerPassCore fuel sortorder g arr1 (j - gap)

/-- Inner loop of the shell sort starting at offset `j` with gap `g + 1`. -/
def innerPass (sortorder g : Nat) (arr : List CStr) (j : Nat) : List CStr :=
  innerPassCore (j + 1) sortorder g arr j

/-- Gap loop `for (gap = n/2; gap > 0; gap = gap/2)` of the shell sort,
fuel-structured (the gap halves each round, so fuel `gap + 1`
suffices). -/
def shellGapCore : Nat → Nat → Nat → List CStr → List CStr
  | 0, _, _, arr => arr
  | fuel + 1, sortorder, gap, arr =>
    if gap = 0 then arr
    else
      let n := arr.length
      let arr1 := (List.range' gap (n - gap)).foldl
        (fun a i => innerPass sortorder (gap - 1) a (i - gap)) arr
      shellGapCore fuel sortorder (gap / 2) arr1

/-- Model of `sarraySort`: with `saout` unset it sorts a copy of `sain`;
with `saout = sain` it sorts in place (the same value in this model); any
other combination is an error. -/
def sarraySort (saout : Option (List CStr)) (sain : List CStr) (sortorder : Nat) :
    Option (List CStr) :=
  match saout with
  | none => some (shellGapCore (sain.length / 2 + 1) sortorder (sain.length / 2) sain)
  | some out =>
    if out = sain then
      some (shellGapCore (sain.length / 2 + 1) sortorder (sain.length / 2) sain)
    else none

/-! ## Conversion back to a single string (sarrayToString / sarrayToStringRange) -/

/-- Separator appended after each element by `sarrayToStringRange`:
newline for `addnlflag = 1`, space for `addnlflag = 2`, nothing
otherwise. -/
def sepBytes (addnlflag : Int) : List Nat :=
  if addnlflag = 1 then [10] else if addnlflag = 2 then [32] else []

/-- Model of `sarrayToStringRange`: an error when `first` is outside
`[0, n)`; otherwise concatenate the `nstrings` elements starting at
`first` (0 or too-large `nstrings` meaning "to the end"), appending the
separator after each element. -/
def sarrayToStringRange (sa : List CStr) (first nstrings addnlflag : Int) : Option CStr :=
  let n : Int := sa.length
  if first < 0 ∨ first ≥ n then none
  else
    let ns := if nstrings = 0 ∨ nstrings > n - first then n - first else nstrings
    some (((sa.drop first.toNat).take ns.toNat).foldl (fun acc s => acc ++ s ++ sepBytes addnlflag) [])

/-- Model of `sarrayToString`: delegates to `sarrayToStringRange` over the
whole array. -/
def sarrayToString (sa : List CStr) (addnlflag : Int) : Option CStr :=
  sarrayToStringRange sa 0 0 addnlflag

/-! ## Word-to-line reflow (sarrayConvertWordsToLines) -/

/-- Flush of the accumulated line `sal` as done by
`sarrayToString(sal, 2)` followed by `sarrayAddString(saout, strl,
L_INSERT)`: on the (guarded-against) error case nothing is appended. -/
def flushLine (sal : List CStr) : List CStr :=
  match sarrayToString sal 2 with
  | some l => [l]
  | none => []

/-- One iteration of the `sarrayConvertWordsToLines` loop on the state
`(saout, sal, totlen)` and the next word `wd`:
a zero-length word flushes any accumulated line and emits a blank line;
a word with `len + 1 > linesize` while no line is in progress is emitted
verbatim on its own; a word that would overflow the line flushes the
line and starts a new one; otherwise the word joins the current line. -/
def wordsToLinesStep (linesize : Int) :
    List CStr × List CStr × Int → CStr → List CStr × List CStr × Int
  | (saout, sal, totlen), wd =>
    let len : Int := wd.length
    if len = 0 then
      ((if 0 < totlen then saout ++ flushLine sal else saout) ++ [[]], [], 0)
    else if totlen = 0 ∧ len + 1 > linesize then
      (saout ++ [wd], sal, totlen)
    else if totlen + len + 1 > linesize then
      (saout ++ flushLine sal, [wd], len + 1)
    else
      (saout, sal ++ [wd], totlen + len + 1)

/-- Model of `sarrayConvertWordsToLines`: fold the loop over the words,
then flush any residual accumulated line. -/
def sarrayConvertWordsToLines (sa : List CStr) (linesize : Int) : List CStr :=
  match sa.foldl (wordsToLinesStep linesize) ([], [], 0) with
  | (saout, sal, totlen) => if 0 < totlen then saout ++ flushLine sal else saout

/-! ## Splitting text (sarraySplitString / sarrayCreateWordsFromString /
sarrayCreateLinesFromString) -/

/-- Tokens of `s` split on the separator set `seps`.  Modelled from the
spec: `strtokSafe` lives in `utils.c`, which is not under `src/`; the
spec's SplitOn tokenizes on any separator character and keeps each
non-empty (maximal non-separator) token.  Fuel-structured; the fuel
`s.length + 1` always suffices since each round consumes the token it
emits. -/
def splitTokensCore : Nat → List Nat → List Nat → List (List Nat)
  | 0, _, _ => []
  | fuel + 1, seps, s =>
    let s1 := s.dropWhile (fun b => seps.contains b)
    match s1 with
    | [] => []
    | _ =>
      s1.takeWhile (fun b => !seps.contains b)
        :: splitTokensCore fuel seps (s1.dropWhile (fun b => !seps.contains b))

/-- Model of `sarraySplitString`: append every token of `str` (split on
`separators`) to `sa`. -/
def sarraySplitString (sa : List CStr) (str : List Nat) (separators : List Nat) : List CStr :=
  sa ++ splitTokensCore (str.length + 1) separators str

/-- Model of `sarrayCreateWordsFromString`: split on space, newline and
tab (the pre-scan of the word count only pre-sizes the storage and does
not affect the contents). -/
def sarrayCreateWordsFromString (s : List Nat) : List CStr :=
  sarraySplitString [] s [32, 10, 9]

/-- Blank-keeping line splitter of `sarrayCreateLinesFromString`: every
`\n` ends a line (possibly empty); content after the last `\n` is emitted
as a final element.  Fuel-structured; each round consumes at least the
newline, so fuel `s.length + 1` suffices. -/
def linesKeepCore : Nat → List Nat → List (List Nat)
  | 0, _ => []
  | fuel + 1, s =>
    match s with
    | [] => []
    | _ =>
      let seg := s.takeWhile (fun b => b != 10)
      match s.dropWhile (fun b => b != 10) with
      | [] => [seg]
      | _ :: rest => seg :: linesKeepCore fuel rest

/-- Model of `sarrayCreateLinesFromString`: keep blank lines when
`blankflag` is nonzero, otherwise split on `\n` discarding empties. -/
def sarrayCreateLinesFromString (s : List Nat) (blankflag : Int) : List CStr :=
  if blankflag ≠ 0 then linesKeepCore (s.length + 1) s
  else sarraySplitString [] s [10]

/-- Serialized stream declaring one string of length 5 whose content is
truncated after two bytes (`"\nSarray Version 1\nNumber of strings = 1\n  0[5]:  ab\n"`). -/
def truncatedInput : List Nat :=
  [10, 83, 97, 114, 114, 97, 121, 32, 86, 101, 114, 115, 105, 111, 110, 32,
   49, 10, 78, 117, 109, 98, 101, 114, 32, 111, 102, 32, 115, 116, 114, 105, 110, 103, 115,
   32, 61, 32, 49, 10, 32, 32, 48, 91, 53, 93, 58, 32, 32, 97, 98, 10]

/-- Serialized stream with a mismatched version token
(`"\nSarray Version 2\nNumber of strings = 0\n\n"`). -/
def badVersionInput : List Nat :=
  [10, 83, 97, 114, 114, 97, 121, 32, 86, 101, 114, 115, 105, 111, 110, 32,
   50, 10, 78, 117, 109, 98, 101, 114, 32, 111, 102, 32, 115, 116, 114, 105, 110, 103, 115,
   32, 61, 32, 48, 10, 10]

/-- Stream position after the version line of `badVersionInput`. -/
def badVersionRest : List Nat :=
  [78, 117, 109, 98, 101, 114, 32, 111, 102, 32, 115, 116, 114, 105, 110, 103, 115,
   32, 61, 32, 48, 10, 10]

/-! ## Container state: creation, growth, removal, refcount
(sarrayCreate / sarrayAddString / sarrayExtendArray / sarrayRemoveString /
sarrayClear / sarrayClone / sarrayDestroy) -/

/-- Copy-flag constant; the source comments fix `L_INSERT = 0`. -/
def L_INSERT : Nat := 0

/-- Copy-flag constant; the source comments fix `L_COPY = 1`. -/
def L_COPY : Nat := 1

/-- Copy-flag constant; the source comments fix `L_NOCOPY = 0`. -/
def L_NOCOPY : Nat := 0

/-- Initial capacity constant `INITIAL_PTR_ARRAYSIZE` from `sarray.c`. -/
def INITIAL_PTR_ARRAYSIZE : Nat := 50

/-- State of a `SARRAY`: its live strings (`array[0..n)`, so the length
of `items` is the field `n`), the allocated capacity `nalloc`, and the
reference count. -/
structure SArr where
  items : List CStr
  nalloc : Nat
  refcount : Int
  deriving Repr, DecidableEq

/-- Model of `sarrayCreate`: empty array with capacity `n` (default 50
when `n ≤ 0`) and refcount 1. -/
def sarrayCreate (n : Int) : SArr :=
  ⟨[], (if n ≤ 0 then (INITIAL_PTR_ARRAYSIZE : Int) else n).toNat, 1⟩

/-- Model of `sarrayExtendArray`: double the capacity. -/
def sarrayExtendArray (sa : SArr) : SArr :=
  { sa with nalloc := 2 * sa.nalloc }

/-- Model of `sarrayAddString`: an invalid copy flag is an error that
leaves the array unmodified (the C returns 1); otherwise the array is
extended when full and the string (inserted or duplicated — the same
value in this model) is stored at index `n`, which then increments. -/
def sarrayAddString (sa : SArr) (s : CStr) (copyflag : Nat) : SArr :=
  if copyflag ≠ L_INSERT ∧ copyflag ≠ L_COPY then sa
  else
    let sa1 := if sa.items.length ≥ sa.nalloc then sarrayExtendArray sa else sa
    { sa1 with items := sa1.items ++ [s] }

/-- Model of `sarrayRemoveString`: an error for an index outside
`[0, n)`; otherwise returns the array with the element removed (later
elements shifted down) together with the removed string. -/
def sarrayRemoveString (sa : SArr) (index : Int) : Option (SArr × CStr) :=
  if index < 0 ∨ index ≥ (sa.items.length : Int) then none
  else
    some ({ sa with items := sa.items.take index.toNat ++ sa.items.drop (index.toNat + 1) },
          sa.items.getD index.toNat [])

/-- Model of `sarrayClear`: free all strings and reset `n` to zero,
keeping the capacity. -/
def sarrayClear (sa : SArr) : SArr := { sa with items := [] }

/-- Model of `sarrayClone`: increment the refcount and return a handle to
the same instance. -/
def sarrayClone (sa : SArr) : SArr := { sa with refcount := sa.refcount + 1 }

/-- Model of `sarrayDestroy`: decrement the refcount; when it drops to 0
or below the instance is freed (`none`), otherwise the instance lives on
with the decremented count. -/
def sarrayDestroy (sa : SArr) : Option SArr :=
  if sa.refcount - 1 ≤ 0 then none else some { sa with refcount := sa.refcount - 1 }

/-! ## Concatenation (sarrayConcatenate) -/

/-- Model of `sarrayConcatenate`: append a duplicate of every element of
`sa2` (read with `L_NOCOPY`, added with `L_COPY`) onto `sa1`; the result
pairs the mutated `sa1` with `sa2`, which the C function never writes. -/
def sarrayConcatenate (sa1 sa2 : List CStr) : List CStr × List CStr :=
  ((List.range sa2.length).foldl (fun acc i => acc ++ [sa2.getD i []]) sa1, sa2)

/-! ## Helper lemmas for lists and folds -/

theorem foldl_append_getD (s2 : List CStr) (l : List Nat) (acc : List CStr) :
    l.foldl (fun a i => a ++ [s2.getD i []]) acc = acc ++ l.map (fun i => s2.getD i []) := by
  induction l generalizing acc with
  | nil => simp
  | cons x t ih =>
    rw [List.foldl_cons, ih, List.map_cons, List.append_assoc, List.singleton_append]

theorem range_map_getD (s2 : List CStr) :
    (List.range s2.length).map (fun i => s2.getD i []) = s2 := by
  induction s2 with
  | nil => simp
  | cons a t ih =>
    rw [List.length_cons, List.range_succ_eq_map, List.map_cons, List.map_map]
    have hcomp : ((fun i => (a :: t).getD i []) ∘ Nat.succ) = (fun i => t.getD i []) := by
      funext i
      simp [List.getD_cons_succ]
    rw [hcomp, ih]
    simp [List.getD_cons_zero]

/-! ## Claim theorems: container, concatenation, to-string -/

/-- Claim C6: cloning returns a handle to the same instance with the
refcount incremented by exactly one and the contents unchanged;
destroying decrements the count by one and frees only when it reaches
zero; for a live array, cloning then releasing once leaves the original
handle valid with its elements intact. -/
theorem sarrayClone_destroy_refcount :
    (∀ sa : SArr, (sarrayClone sa).refcount = sa.refcount + 1 ∧ (sarrayClone sa).items = sa.items)
    ∧ (∀ sa : SArr, sarrayDestroy sa
        = if sa.refcount - 1 ≤ 0 then none else some { sa with refcount := sa.refcount - 1 })
    ∧ (∀ sa : SArr, 1 ≤ sa.refcount → (sarrayDestroy sa = none ↔ sa.refcount = 1))
    ∧ (∀ sa : SArr, 1 ≤ sa.refcount → sarrayDestroy (sarrayClone sa) = some sa) := by
  refine ⟨fun sa => ⟨rfl, rfl⟩, fun sa => rfl, fun sa h => ?_, fun sa h => ?_⟩
  · unfold sarrayDestroy
    by_cases hc : sa.refcount - 1 ≤ 0
    · simp only [if_pos hc]
      constructor
      · intro _; omega
      · intro _; trivial
    · simp only [if_neg hc]
      constructor
      · intro hcontra; exact absurd hcontra (by simp)
      · intro h1; omega
  · obtain ⟨it, na, rc⟩ := sa
    simp only [sarrayClone, sarrayDestroy] at *
    have hc : ¬ (rc + 1 - 1 ≤ 0) := by omega
    simp only [if_neg hc]
    have : rc + 1 - 1 = rc := by omega
    simp [this]

/-- Witness for C6 at a concrete live array. -/
theorem sarrayClone_destroy_refcount_witness :
    (1:Int) ≤ (⟨[[97]], 4, 1⟩ : SArr).refcount
    ∧ sarrayDestroy (sarrayClone ⟨[[97]], 4, 1⟩) = some ⟨[[97]], 4, 1⟩ :=
  ⟨by decide, sarrayClone_destroy_refcount.2.2.2 ⟨[[97]], 4, 1⟩ (by decide)⟩

/-- Claim C8: after concatenation the source array is unchanged, the
destination has grown by exactly the source's count, and the appended
elements equal the source's elements in order (the destination becomes
`dst ++ src`). -/
theorem sarrayConcatenate_frame (d s : List CStr) :
    (sarrayConcatenate d s).1 = d ++ s
    ∧ (sarrayConcatenate d s).2 = s
    ∧ (sarrayConcatenate d s).1.length = d.length + s.length
    ∧ (sarrayConcatenate d s).1.drop d.length = s := by
  have h1 : (sarrayConcatenate d s).1 = d ++ s := by
    unfold sarrayConcatenate
    rw [foldl_append_getD, range_map_getD]
  refine ⟨h1, rfl, ?_, ?_⟩
  · rw [h1]; simp
  · rw [h1]; simp

/-- Claim C9: the invariant `length ≤ capacity` (with a positive
capacity) is established by creation and preserved by every operation;
adding to a full array doubles the capacity before storing the element;
removal and clearing only decrease the length and never change the
capacity. -/
theorem sarray_capacity_invariant :
    (∀ n : Int, (sarrayCreate n).items.length ≤ (sarrayCreate n).nalloc
        ∧ 1 ≤ (sarrayCreate n).nalloc)
    ∧ (∀ (sa : SArr) (s : CStr) (f : Nat), sa.items.length ≤ sa.nalloc → 1 ≤ sa.nalloc →
        (sarrayAddString sa s f).items.length ≤ (sarrayAddString sa s f).nalloc
          ∧ 1 ≤ (sarrayAddString sa s f).nalloc)
    ∧ (∀ (sa : SArr) (s : CStr) (f : Nat), (f = L_INSERT ∨ f = L_COPY) →
        sa.items.length ≥ sa.nalloc →
        (sarrayAddString sa s f).nalloc = 2 * sa.nalloc
          ∧ (sarrayAddString sa s f).items = sa.items ++ [s])
    ∧ (∀ (sa : SArr) (s : CStr) (f : Nat), sa.items.length < sa.nalloc →
        (sarrayAddString sa s f).nalloc = sa.nalloc)
    ∧ (∀ (sa : SArr) (i : Int) (sa2 : SArr) (s : CStr), sarrayRemoveString sa i = some (sa2, s) →
        sa2.nalloc = sa.nalloc ∧ sa2.items.length + 1 = sa.items.length)
    ∧ (∀ sa : SArr, (sarrayClear sa).nalloc = sa.nalloc
        ∧ (sarrayClear sa).items.length = 0) := by
  refine ⟨fun n => ?_, fun sa s f hinv hpos => ?_, fun sa s f hf hfull => ?_,
    fun sa s f hroom => ?_, fun sa i sa2 s hrem => ?_, fun sa => ⟨rfl, rfl⟩⟩
  · constructor
    · simp [sarrayCreate]
    · unfold sarrayCreate
      by_cases h : n ≤ 0
      · simp only [if_pos h]; decide
      · simp only [if_neg h]; omega
  · unfold sarrayAddString
    by_cases hbad : f ≠ L_INSERT ∧ f ≠ L_COPY
    · simp only [if_pos hbad]; exact ⟨hinv, hpos⟩
    · simp only [if_neg hbad]
      by_cases hfull : sa.items.length ≥ sa.nalloc
      · simp only [if_pos hfull, sarrayExtendArray]
        refine ⟨?_, ?_⟩
        · simp only [List.length_append, List.length_cons, List.length_nil]
          omega
        · omega
      · simp only [if_neg hfull]
        refine ⟨?_, hpos⟩
        simp only [List.length_append, List.length_cons, List.length_nil]
        omega
  · unfold sarrayAddString
    have hok : ¬ (f ≠ L_INSERT ∧ f ≠ L_COPY) := by
      rcases hf with h | h <;> simp [h]
    simp only [if_neg hok, if_pos hfull, sarrayExtendArray]
    exact ⟨trivial, trivial⟩
  · unfold sarrayAddString
    by_cases hbad : f ≠ L_INSERT ∧ f ≠ L_COPY
    · simp only [if_pos hbad]
    · have : ¬ (sa.items.length ≥ sa.nalloc) := by omega
      simp only [if_neg hbad, if_neg this]
  · unfold sarrayRemoveString at hrem
    by_cases hout : i < 0 ∨ i ≥ (sa.items.length : Int)
    · rw [if_pos hout] at hrem; exact absurd hrem (by simp)
    · rw [if_neg hout] at hrem
      injection hrem with h
      rw [Prod.mk.injEq] at h
      obtain ⟨h1, h2⟩ := h
      subst h1
      have hlt : i.toNat < sa.items.length := by omega
      refine ⟨rfl, ?_⟩
      simp only [List.length_append, List.length_take, List.length_drop]
      omega

/-- Witness for C9 preservation at a concrete state. -/
theorem sarray_capacity_invariant_witness :
    ((⟨[[97]], 1, 1⟩ : SArr).items.length ≤ (⟨[[97]], 1, 1⟩ : SArr).nalloc)
    ∧ (sarrayAddString ⟨[[97]], 1, 1⟩ [98] L_COPY).items.length
        ≤ (sarrayAddString ⟨[[97]], 1, 1⟩ [98] L_COPY).nalloc :=
  ⟨by decide, (sarray_capacity_invariant.2.1 ⟨[[97]], 1, 1⟩ [98] L_COPY
    (by decide) (by decide)).1⟩

/-- Claim C10: for every join mode, converting an empty array to a string
is an error (index 0 is already out of range), both through
`sarrayToString` and through `sarrayToStringRange 0 0`; on any array,
`sarrayToString` is exactly `sarrayToStringRange` at `first = 0`,
`nstrings = 0`. -/
theorem sarrayToString_empty_error :
    (∀ flag : Int, sarrayToString [] flag = none)
    ∧ (∀ flag : Int, sarrayToStringRange [] 0 0 flag = none)
    ∧ (∀ (sa : List CStr) (flag : Int), sa ≠ [] →
        sarrayToString sa flag = sarrayToStringRange sa 0 0 flag) := by
  refine ⟨fun flag => ?_, fun flag => ?_, fun sa flag _ => rfl⟩
  · simp [sarrayToString, sarrayToStringRange]
  · simp [sarrayToStringRange]

/-- Witness for C10 on a concrete non-empty array. -/
theorem sarrayToString_empty_error_witness :
    (([[97]] : List CStr) ≠ [])
    ∧ sarrayToString [[97]] 1 = sarrayToStringRange [[97]] 0 0 1 :=
  ⟨by decide, sarrayToString_empty_error.2.2 [[97]] 1 (by decide)⟩

/-! ## Claim theorems: lexical comparison and sort -/

/-- Counterexample to C2 as stated: the comparator does not use unsigned
byte comparison.  The byte 0x80 (128) is greater than `a` (97) as an
unsigned byte, so the claimed comparator would order `"\x80"` after
`"a"`; the code compares signed `char` values (0x80 is -128), so it
orders `"\x80"` strictly before `"a"`. -/
theorem stringCompareLexical_unsigned_counterexample :
    stringCompareLexical [128] [97] = 0
    ∧ stringCompareLexical [97] [128] = 1
    ∧ 97 < 128 := by decide

/-- Claim C2 (amended): the comparator decides by the first differing
byte using signed `char` comparison (unsigned only below 0x80); a strict
prefix sorts before the longer string; equal strings compare as 0 and so
never trigger a swap; and the concrete sort example holds. -/
theorem sarraySort_lexical_comparator :
    (∀ (p s t : List Nat) (a b : Nat), a ≠ b →
      stringCompareLexical (p ++ a :: s) (p ++ b :: t)
        = if charVal a > charVal b then 1 else 0)
    ∧ (∀ (s u : List Nat), u ≠ [] →
        stringCompareLexical (s ++ u) s = 1 ∧ stringCompareLexical s (s ++ u) = 0)
    ∧ (∀ s : List Nat, stringCompareLexical s s = 0)
    ∧ sarraySort none [[98, 97, 110, 97, 110, 97], [97, 112, 112, 108, 101],
        [67, 104, 101, 114, 114, 121]] L_SORT_INCREASING
      = some [[67, 104, 101, 114, 114, 121], [97, 112, 112, 108, 101],
        [98, 97, 110, 97, 110, 97]] := by
  refine ⟨?_, ?_, ?_, by decide⟩
  · intro p s t a b hab
    induction p with
    | nil => simp [stringCompareLexical, hab]
    | cons c q ih => simpa [stringCompareLexical] using ih
  · intro s u hu
    induction s with
    | nil =>
      cases u with
      | nil => exact absurd rfl hu
      | cons x v => exact ⟨rfl, rfl⟩
    | cons c q ih => simpa [stringCompareLexical] using ih
  · intro s
    induction s with
    | nil => rfl
    | cons c q ih => simpa [stringCompareLexical] using ih

/-- Witness for C2 (amended) at a concrete differing byte. -/
theorem sarraySort_lexical_comparator_witness :
    (98 ≠ 97)
    ∧ stringCompareLexical ([] ++ 98 :: []) ([] ++ 97 :: [])
        = if charVal 98 > charVal 97 then 1 else 0 :=
  ⟨by decide, sarraySort_lexical_comparator.1 [] [] [] 98 97 (by decide)⟩

/-! ## Claim theorems: word-to-line reflow -/

/-- Claim C3: the reflow accumulates tokens onto the current line with a
one-character separator per token, flushes the current line before
starting a new one with the token that would overflow it, and on
`["aa","bb","cc"]` with width 6 yields exactly `["aa bb ", "cc "]`. -/
theorem sarrayConvertWordsToLines_accumulate_flush :
    sarrayConvertWordsToLines [[97, 97], [98, 98], [99, 99]] 6
      = [[97, 97, 32, 98, 98, 32], [99, 99, 32]]
    ∧ (∀ (out sal : List CStr) (totlen : Int) (wd : CStr) (lsz : Int),
        wd ≠ [] → totlen + wd.length + 1 ≤ lsz →
        wordsToLinesStep lsz (out, sal, totlen) wd
          = (out, sal ++ [wd], totlen + wd.length + 1))
    ∧ (∀ (out sal : List CStr) (totlen : Int) (wd : CStr) (lsz : Int),
        wd ≠ [] → 0 < totlen → totlen + wd.length + 1 > lsz →
        wordsToLinesStep lsz (out, sal, totlen) wd
          = (out ++ flushLine sal, [wd], (wd.length : Int) + 1)) := by
  refine ⟨by decide, ?_, ?_⟩
  · intro out sal totlen wd lsz hwd hle
    have h0 : ¬ ((wd.length : Int) = 0) := by
      intro h
      exact hwd (List.length_eq_zero.mp (by exact_mod_cast h))
    have h1 : ¬ (totlen = 0 ∧ (wd.length : Int) + 1 > lsz) := by
      rintro ⟨rfl, hgt⟩
      omega
    have h2 : ¬ (totlen + (wd.length : Int) + 1 > lsz) := by omega
    simp only [wordsToLinesStep, if_neg h0, if_neg h1, if_neg h2]
  · intro out sal totlen wd lsz hwd hpos hgt
    have h0 : ¬ ((wd.length : Int) = 0) := by
      intro h
      exact hwd (List.length_eq_zero.mp (by exact_mod_cast h))
    have h1 : ¬ (totlen = 0 ∧ (wd.length : Int) + 1 > lsz) := by
      rintro ⟨rfl, _⟩
      omega
    have h2 : totlen + (wd.length : Int) + 1 > lsz := hgt
    simp only [wordsToLinesStep, if_neg h0, if_neg h1, if_pos h2]

/-- Witness for C3 at a concrete accumulate step. -/
theorem sarrayConvertWordsToLines_accumulate_flush_witness :
    (([97] : CStr) ≠ [])
    ∧ wordsToLinesStep 6 ([], [], 0) [97]
        = ([], [] ++ [[97]], 0 + (([97] : CStr).length : Int) + 1) :=
  ⟨by decide, sarrayConvertWordsToLines_accumulate_flush.2.1 [] [] 0 [97] 6
    (by decide) (by decide)⟩

/-- Counterexample to C7 as stated: a token whose length equals
`maxLineWidth` exactly (so does not exceed it) is still emitted verbatim
as its own line when no line is in progress, because the code's guard is
`len + 1 > linesize`, not `len > linesize`; the claim's "only such
tokens" direction fails.  (The accumulate path would instead have
produced the flushed line `"aaaaaa "` with a trailing separator.) -/
theorem wordsToLines_boundary_counterexample :
    sarrayConvertWordsToLines [[97, 97, 97, 97, 97, 97]] 6 = [[97, 97, 97, 97, 97, 97]]
    ∧ ¬ ((6 : Int) < ([97, 97, 97, 97, 97, 97] : CStr).length) := by decide

/-- Claim C7 (amended): when no line is in progress, a non-empty token is
emitted verbatim (never split) as its own output line exactly when its
length plus the one-character separator exceeds `maxLineWidth`, i.e.
when its length is at least `maxLineWidth`. -/
theorem wordsToLines_longword_verbatim (out sal : List CStr) (wd : CStr) (lsz : Int)
    (hwd : wd ≠ []) :
    wordsToLinesStep lsz (out, sal, 0) wd = (out ++ [wd], sal, 0)
      ↔ (wd.length : Int) + 1 > lsz := by
  have h0 : ¬ ((wd.length : Int) = 0) := by
    intro h
    exact hwd (List.length_eq_zero.mp (by exact_mod_cast h))
  constructor
  · intro h
    by_contra hc
    have hstep : wordsToLinesStep lsz (out, sal, 0) wd
        = (out, sal ++ [wd], 0 + (wd.length : Int) + 1) := by
      simp only [wordsToLinesStep, if_neg h0]
      rw [if_neg (show ¬ (True ∧ (wd.length : Int) + 1 > lsz) from fun hh => hc hh.2),
        if_neg (show ¬ ((0 : Int) + (wd.length : Int) + 1 > lsz) from by omega)]
    rw [hstep] at h
    have hlen := congrArg (fun q => q.1.length) h
    simp at hlen
  · intro hc
    simp only [wordsToLinesStep, if_neg h0]
    rw [if_pos (show True ∧ (wd.length : Int) + 1 > lsz from ⟨trivial, hc⟩)]

/-- Witness for C7 (amended) at a concrete over-long token. -/
theorem wordsToLines_longword_verbatim_witness :
    (([97] : CStr) ≠ [])
    ∧ wordsToLinesStep 1 ([], [], 0) [97] = ([] ++ [[97]], [], 0) :=
  ⟨by decide, (wordsToLines_longword_verbatim [] [] [97] 1 (by decide)).mpr (by decide)⟩

/-! ## Claim theorems: splitting -/

/-- Claim C4: splitting `"  a  bb   c "` into words yields exactly
`["a","bb","c"]`; splitting `"a\n\nb"` into lines keeping blanks yields
`["a","","b"]` (blank line kept, unterminated final segment appended);
the same input without blanks yields `["a","b"]`. -/
theorem sarray_split_words_lines :
    sarrayCreateWordsFromString [32, 32, 97, 32, 32, 98, 98, 32, 32, 32, 99, 32]
      = [[97], [98, 98], [99]]
    ∧ sarrayCreateLinesFromString [97, 10, 10, 98] 1 = [[97], [], [98]]
    ∧ sarrayCreateLinesFromString [97, 10, 10, 98] 0 = [[97], [98]] := by decide

/-! ## Claim theorems: reader error behavior -/

/-- Counterexample to C5 as stated: on `truncatedInput` the declared
string length is 5 but only the 3 bytes `"ab\n"` are present before the
stream ends; the claim requires the mismatch to surface as an error, but
the reader (which never checks the results of the in-loop `fscanf` and
`fread`) silently returns a one-element array holding the garbage string
`"ab\n"` (the writer's trailing newline, normally stripped, is retained
because the NUL lands past the short read). -/
theorem sarrayReadStream_silent_truncation_counterexample :
    sarrayReadStream truncatedInput = some [[97, 98, 10]]
    ∧ (5 : Nat) ≠ ([97, 98, 10] : CStr).length := by decide

/-- Claim C5 (amended): a malformed header or a mismatched version token
makes the read fail with no array; but declared per-string lengths or
counts that disagree with the actual content are not detected — on such
inputs the reader silently returns a truncated/garbage array rather than
an error. -/
theorem sarrayReadStream_header_error_behavior :
    (∀ s : List Nat, scanVersion s = none → sarrayReadStream s = none)
    ∧ (∀ (s : List Nat) (v : Int) (rest : List Nat),
        scanVersion s = some (v, rest) → v ≠ SARRAY_VERSION_NUMBER →
        sarrayReadStream s = none)
    ∧ sarrayReadStream truncatedInput = some [[97, 98, 10]] := by
  refine ⟨fun s h => ?_, fun s v rest h hv => ?_, by decide⟩
  · unfold sarrayReadStream
    rw [h]
  · unfold sarrayReadStream
    rw [h]
    exact if_pos hv

/-- Witness for C5 (amended) at a concrete mismatched-version stream. -/
theorem sarrayReadStream_header_error_behavior_witness :
    scanVersion badVersionInput = some (2, badVersionRest)
    ∧ sarrayReadStream badVersionInput = none :=
  ⟨by decide, sarrayReadStream_header_error_behavior.2.1 badVersionInput 2 badVersionRest
    (by decide) (by decide)⟩

/-! ## Helper lemmas for the serialization round trip -/

theorem skipWs_cons (b : Nat) (s : List Nat) :
    skipWs (b :: s) = if isSpaceByte b then skipWs s else b :: s := by
  simp [skipWs, List.dropWhile_cons]

theorem skipWs_cons_of_space (b : Nat) (s : List Nat) (h : isSpaceByte b = true) :
    skipWs (b :: s) = skipWs s := by
  rw [skipWs_cons, if_pos h]

theorem skipWs_cons_of_not (b : Nat) (s : List Nat) (h : isSpaceByte b = false) :
    skipWs (b :: s) = b :: s := by
  rw [skipWs_cons, if_neg (by simp [h])]

theorem skipWs_idem (s : List Nat) : skipWs (skipWs s) = skipWs s := by
  induction s with
  | nil => rfl
  | cons b t ih =>
    by_cases h : isSpaceByte b
    · rw [skipWs_cons_of_space _ _ h]
      exact ih
    · rw [skipWs_cons_of_not _ _ (by simpa using h)]
      exact skipWs_cons_of_not _ _ (by simpa using h)

theorem skipWs_append_nonspace (l rest : List Nat) (hl : l ≠ [])
    (h : ∀ b ∈ l, isSpaceByte b = false) : skipWs (l ++ rest) = l ++ rest := by
  cases l with
  | nil => exact absurd rfl hl
  | cons b t =>
    rw [List.cons_append]
    exact skipWs_cons_of_not _ _ (h b (List.mem_cons_self b t))

theorem matchLit_self (p r : List Nat) : matchLit p (p ++ r) = some r := by
  induction p with
  | nil => rfl
  | cons c q ih => simpa [matchLit] using ih

theorem takeDigits_not_digit (b : Nat) (s : List Nat) (acc : Nat) (h : isDigitByte b = false) :
    takeDigits (b :: s) acc = (acc, b :: s) := by
  simp [takeDigits, h]

/-- Head of the stream (if any) is not a decimal digit, so a digit run
stops here. -/
def noDigitHead : List Nat → Prop
  | [] => True
  | b :: _ => isDigitByte b = false

theorem noDigitHead_nil : noDigitHead [] := trivial

theorem noDigitHead_cons (b : Nat) (t : List Nat) (h : isDigitByte b = false) :
    noDigitHead (b :: t) := h

theorem takeDigits_stop (s : List Nat) (acc : Nat) (h : noDigitHead s) :
    takeDigits s acc = (acc, s) := by
  cases s with
  | nil => rfl
  | cons b t => exact takeDigits_not_digit b t acc h

theorem decDigitsCore_mem (fuel n : Nat) : ∀ b ∈ decDigitsCore fuel n, 48 ≤ b ∧ b ≤ 57 := by
  induction fuel generalizing n with
  | zero => intro b hb; simp [decDigitsCore] at hb
  | succ f ih =>
    intro b hb
    by_cases h : n < 10
    · simp only [decDigitsCore, if_pos h, List.mem_singleton] at hb
      omega
    · simp only [decDigitsCore, if_neg h] at hb
      rcases List.mem_append.mp hb with h1 | h1
      · exact ih (n / 10) b h1
      · simp only [List.mem_singleton] at h1
        have hm : n % 10 < 10 := Nat.mod_lt _ (by omega)
        omega

theorem decDigitsCore_ne_nil (f n : Nat) : decDigitsCore (f + 1) n ≠ [] := by
  by_cases h : n < 10
  · simp [decDigitsCore, if_pos h]
  · simp [decDigitsCore, if_neg h]

theorem decDigits_ne_nil (n : Nat) : decDigits n ≠ [] := decDigitsCore_ne_nil n n

theorem decDigits_mem (n : Nat) : ∀ b ∈ decDigits n, 48 ≤ b ∧ b ≤ 57 :=
  decDigitsCore_mem (n + 1) n

theorem digit_not_space (b : Nat) (h : 48 ≤ b ∧ b ≤ 57) : isSpaceByte b = false := by
  simp only [isSpaceByte, Bool.or_eq_false_iff, beq_eq_false_iff_ne, ne_eq]
  omega

theorem digit_is_digit (b : Nat) (h : 48 ≤ b ∧ b ≤ 57) : isDigitByte b = true := by
  simpa [isDigitByte] using h

theorem takeDigits_decDigitsCore (fuel : Nat) :
    ∀ (n : Nat), n < fuel → ∀ (rest : List Nat) (acc : Nat),
    takeDigits (decDigitsCore fuel n ++ rest) acc
      = takeDigits rest (acc * 10 ^ (decDigitsCore fuel n).length + n) := by
  induction fuel with
  | zero => intro n hn; omega
  | succ f ih =>
    intro n hn rest acc
    by_cases h : n < 10
    · simp only [decDigitsCore, if_pos h, List.singleton_append, List.length_singleton]
      rw [takeDigits, if_pos (digit_is_digit (48 + n) (by omega))]
      have h1 : 48 + n - 48 = n := by omega
      rw [h1, pow_one]
    · simp only [decDigitsCore, if_neg h, List.append_assoc, List.length_append,
        List.length_singleton]
      rw [ih (n / 10) (by omega), List.singleton_append,
        takeDigits, if_pos (digit_is_digit (48 + n % 10) (by have := Nat.mod_lt n (show 0 < 10 by omega); omega))]
      congr 1
      have h1 : 48 + n % 10 - 48 = n % 10 := by omega
      rw [h1, pow_succ]
      have hdm : 10 * (n / 10) + n % 10 = n := Nat.div_add_mod n 10
      set q := n / 10 with hq
      set r := n % 10 with hr
      set K := 10 ^ (decDigitsCore f q).length with hK
      calc (acc * K + q) * 10 + r = acc * (K * 10) + (10 * q + r) := by ring
        _ = acc * (K * 10) + n := by rw [hdm]

theorem takeDigits_decDigits (n : Nat) (rest : List Nat) (acc : Nat) :
    takeDigits (decDigits n ++ rest) acc
      = takeDigits rest (acc * 10 ^ (decDigits n).length + n) :=
  takeDigits_decDigitsCore (n + 1) n (by omega) rest acc

theorem parseIntCore_decDigits (n : Nat) (rest : List Nat) (hrest : noDigitHead rest) :
    parseIntCore (decDigits n ++ rest) = (some (n : Int), rest) := by
  obtain ⟨b, t, hbt⟩ : ∃ b t, decDigits n = b :: t := by
    cases hd : decDigits n with
    | nil => exact absurd hd (decDigits_ne_nil n)
    | cons b t => exact ⟨b, t, rfl⟩
  have hmem : 48 ≤ b ∧ b ≤ 57 := decDigits_mem n b (by rw [hbt]; exact List.mem_cons_self b t)
  rw [hbt, List.cons_append]
  simp only [parseIntCore]
  rw [if_neg (show ¬ (b = 45) from by omega), if_pos (digit_is_digit b hmem)]
  rw [← List.cons_append, ← hbt, takeDigits_decDigits, takeDigits_stop rest _ hrest]
  simp

theorem parseIntW_skipWs (s : List Nat) : parseIntW (skipWs s) = parseIntW s := by
  unfold parseIntW
  rw [skipWs_idem]

theorem scanIdxSize_skipWs (s : List Nat) : scanIdxSize (skipWs s) = scanIdxSize s := by
  unfold scanIdxSize
  rw [parseIntW_skipWs]

theorem readEntries_skipWs (s buf : List Nat) (bufsize : Nat) (szOld : Option Int)
    (acc : List CStr) (k : Nat) :
    readEntries (skipWs s) buf bufsize szOld acc k = readEntries s buf bufsize szOld acc k := by
  cases k with
  | zero => rfl
  | succ m => simp only [readEntries, scanIdxSize_skipWs]

theorem take_cons2 (Y : List Nat) (m : Nat) :
    (32 :: 32 :: Y).take (m + 2) = 32 :: 32 :: Y.take m := rfl

theorem drop_cons2 (Y : List Nat) (m : Nat) :
    (32 :: 32 :: Y).drop (m + 2) = Y.drop m := rfl

theorem set_cons2 (Y : List Nat) (m v : Nat) :
    (32 :: 32 :: Y).set (m + 2) v = 32 :: 32 :: Y.set m v := rfl

theorem drop2_cons2 (Y : List Nat) : (32 :: 32 :: Y).drop 2 = Y := rfl

theorem take_append_mark (s R : List Nat) :
    (s ++ 10 :: R).take (s.length + 1) = s ++ [10] := by
  induction s with
  | nil => rfl
  | cons a t ih => rw [List.cons_append, List.length_cons, List.take_succ_cons, ih, List.cons_append]

theorem drop_append_mark (s R : List Nat) :
    (s ++ 10 :: R).drop (s.length + 1) = R := by
  induction s with
  | nil => rfl
  | cons a t ih => rw [List.cons_append, List.length_cons, List.drop_succ_cons, ih]

theorem set_append_mark (s R : List Nat) (v : Nat) :
    (s ++ 10 :: R).set s.length v = s ++ v :: R := by
  induction s with
  | nil => rfl
  | cons a t ih => rw [List.cons_append, List.length_cons, List.set_cons_succ, ih, List.cons_append]

theorem takeWhile_append_zero (s t : List Nat) (hs : ∀ b ∈ s, b ≠ 0) :
    (s ++ 0 :: t).takeWhile (fun b => b != 0) = s := by
  induction s with
  | nil => simp
  | cons a q ih =>
    have ha : (a != 0) = true := by
      simpa using hs a (List.mem_cons_self a q)
    rw [List.cons_append]
    simp only [List.takeWhile_cons, ha, if_true]
    rw [ih (fun b hb => hs b (List.mem_cons_of_mem a hb))]

theorem entryLine_append (i : Nat) (s : CStr) (rest : List Nat) :
    entryLine i s ++ rest
      = 32 :: 32 :: (decDigits i
          ++ (91 :: (decDigits s.length ++ (93 :: 58 :: (32 :: 32 :: (s ++ 10 :: rest)))))) := by
  unfold entryLine
  simp

theorem scanIdxSize_entryLine (i : Nat) (s : CStr) (rest : List Nat) :
    scanIdxSize (entryLine i s ++ rest)
      = (some (s.length : Int), 32 :: 32 :: (s ++ 10 :: rest)) := by
  have h1 : parseIntW (entryLine i s ++ rest)
      = (some (i : Int),
         91 :: (decDigits s.length ++ (93 :: 58 :: (32 :: 32 :: (s ++ 10 :: rest))))) := by
    unfold parseIntW
    rw [entryLine_append, skipWs_cons_of_space 32 _ (by decide),
      skipWs_cons_of_space 32 _ (by decide),
      skipWs_append_nonspace _ _ (decDigits_ne_nil i)
        (fun b hb => digit_not_space b (decDigits_mem i b hb))]
    exact parseIntCore_decDigits i _ (noDigitHead_cons _ _ (by decide))
  have h2 : parseIntW (decDigits s.length ++ (93 :: 58 :: (32 :: 32 :: (s ++ 10 :: rest))))
      = (some (s.length : Int), 93 :: 58 :: (32 :: 32 :: (s ++ 10 :: rest))) := by
    unfold parseIntW
    rw [skipWs_append_nonspace _ _ (decDigits_ne_nil s.length)
      (fun b hb => digit_not_space b (decDigits_mem s.length b hb))]
    exact parseIntCore_decDigits s.length _ (noDigitHead_cons _ _ (by decide))
  simp only [scanIdxSize, h1, h2]

theorem cons2_append (X D : List Nat) : (32 :: 32 :: X) ++ D = 32 :: 32 :: (X ++ D) := rfl

theorem readEntries_step (i : Nat) (s : CStr) (hs : ∀ b ∈ s, b ≠ 0) (R buf : List Nat)
    (bufsize : Nat) (szOld : Option Int) (acc : List CStr) (k : Nat) :
    ∃ (buf2 : List Nat) (bufsize2 : Nat),
      readEntries (entryLine i s ++ R) buf bufsize szOld acc (k + 1)
        = readEntries R buf2 bufsize2 (some (s.length : Int)) (acc ++ [s]) k := by
  have hneg : ¬ ((s.length : Int) < 0) := by omega
  have hlen : ((32 : Nat) :: 32 :: (s ++ 10 :: R)).length = s.length + 3 + R.length := by
    simp only [List.length_cons, List.length_append]
    omega
  have hmin : min (s.length + 3) (s.length + 3 + R.length) = s.length + 3 := by omega
  simp only [readEntries, scanIdxSize_entryLine, if_neg hneg, Int.toNat_natCast]
  rw [hlen, hmin]
  rw [show s.length + 3 = s.length + 1 + 2 from by omega]
  simp only [take_cons2, drop_cons2, take_append_mark, drop_append_mark]
  simp only [cons2_append, List.append_assoc, List.singleton_append]
  simp only [set_cons2, set_append_mark, drop2_cons2]
  rw [takeWhile_append_zero _ _ hs]
  exact ⟨_, _, rfl⟩

theorem readEntries_entriesFrom :
    ∀ (l : List CStr), (∀ x ∈ l, validStr x) →
    ∀ (i : Nat) (tail buf : List Nat) (bufsize : Nat) (szOld : Option Int) (acc : List CStr),
    readEntries (entriesFrom i l ++ tail) buf bufsize szOld acc l.length = some (acc ++ l) := by
  intro l
  induction l with
  | nil =>
    intro _ i tail buf bufsize szOld acc
    simp [entriesFrom, readEntries]
  | cons s t ih =>
    intro hl i tail buf bufsize szOld acc
    have hs : ∀ b ∈ s, b ≠ 0 := fun b hb =>
      Nat.pos_iff_ne_zero.mp (show 0 < b ∧ b < 256 from hl s (List.mem_cons_self s t) b hb).1
    obtain ⟨buf2, bufsize2, hstep⟩ :=
      readEntries_step i s hs (entriesFrom (i + 1) t ++ tail) buf bufsize szOld acc t.length
    calc readEntries (entriesFrom i (s :: t) ++ tail) buf bufsize szOld acc (s :: t).length
        = readEntries (entryLine i s ++ (entriesFrom (i + 1) t ++ tail)) buf bufsize szOld acc
            (t.length + 1) := by
          rw [show entriesFrom i (s :: t) = entryLine i s ++ entriesFrom (i + 1) t from rfl,
            List.append_assoc, List.length_cons]
      _ = readEntries (entriesFrom (i + 1) t ++ tail) buf2 bufsize2 (some (s.length : Int))
            (acc ++ [s]) t.length := hstep
      _ = some ((acc ++ [s]) ++ t) :=
          ih (fun x hx => hl x (List.mem_cons_of_mem s hx)) (i + 1) tail buf2 bufsize2 _ _
      _ = some (acc ++ s :: t) := by simp

theorem readEntries_cons_ws (b : Nat) (hb : isSpaceByte b = true) (X buf : List Nat)
    (bufsize : Nat) (szOld : Option Int) (acc : List CStr) (k : Nat) :
    readEntries (b :: X) buf bufsize szOld acc k = readEntries X buf bufsize szOld acc k := by
  calc readEntries (b :: X) buf bufsize szOld acc k
      = readEntries (skipWs (b :: X)) buf bufsize szOld acc k :=
        (readEntries_skipWs _ _ _ _ _ _).symm
    _ = readEntries (skipWs X) buf bufsize szOld acc k := by rw [skipWs_cons_of_space b X hb]
    _ = readEntries X buf bufsize szOld acc k := readEntries_skipWs _ _ _ _ _ _

theorem scanVersion_write (sa : List CStr) :
    scanVersion (sarrayWriteStream sa)
      = some (1, litNumber ++ 32 :: (litOf ++ 32 :: (litStrings
          ++ 32 :: 61 :: 32 :: (decDigits sa.length ++ 10 :: (entriesFrom 0 sa ++ [10]))))) := by
  have hW : sarrayWriteStream sa
      = 10 :: (litSarray ++ 32 :: (litVersion ++ 32 :: (decDigits 1 ++ 10 ::
          (litNumber ++ 32 :: (litOf ++ 32 :: (litStrings
          ++ 32 :: 61 :: 32 :: (decDigits sa.length ++ 10 :: (entriesFrom 0 sa ++ [10])))))))) := by
    simp [sarrayWriteStream, SARRAY_VERSION_NUMBER]
  have h1 : skipWs (sarrayWriteStream sa)
      = litSarray ++ 32 :: (litVersion ++ 32 :: (decDigits 1 ++ 10 ::
          (litNumber ++ 32 :: (litOf ++ 32 :: (litStrings
          ++ 32 :: 61 :: 32 :: (decDigits sa.length ++ 10 :: (entriesFrom 0 sa ++ [10]))))))) := by
    rw [hW, skipWs_cons_of_space 10 _ (by decide)]
    exact skipWs_append_nonspace _ _ (by decide) (by decide)
  have h2 : matchLit litSarray (skipWs (sarrayWriteStream sa))
      = some (32 :: (litVersion ++ 32 :: (decDigits 1 ++ 10 ::
          (litNumber ++ 32 :: (litOf ++ 32 :: (litStrings
          ++ 32 :: 61 :: 32 :: (decDigits sa.length ++ 10 :: (entriesFrom 0 sa ++ [10])))))))) := by
    rw [h1]
    exact matchLit_self _ _
  have h3 : skipWs (32 :: (litVersion ++ 32 :: (decDigits 1 ++ 10 ::
          (litNumber ++ 32 :: (litOf ++ 32 :: (litStrings
          ++ 32 :: 61 :: 32 :: (decDigits sa.length ++ 10 :: (entriesFrom 0 sa ++ [10]))))))))
      = litVersion ++ 32 :: (decDigits 1 ++ 10 ::
          (litNumber ++ 32 :: (litOf ++ 32 :: (litStrings
          ++ 32 :: 61 :: 32 :: (decDigits sa.length ++ 10 :: (entriesFrom 0 sa ++ [10])))))) := by
    rw [skipWs_cons_of_space 32 _ (by decide)]
    exact skipWs_append_nonspace _ _ (by decide) (by decide)
  have h4 : matchLit litVersion (skipWs (32 :: (litVersion ++ 32 :: (decDigits 1 ++ 10 ::
          (litNumber ++ 32 :: (litOf ++ 32 :: (litStrings
          ++ 32 :: 61 :: 32 :: (decDigits sa.length ++ 10 :: (entriesFrom 0 sa ++ [10])))))))))
      = some (32 :: (decDigits 1 ++ 10 ::
          (litNumber ++ 32 :: (litOf ++ 32 :: (litStrings
          ++ 32 :: 61 :: 32 :: (decDigits sa.length ++ 10 :: (entriesFrom 0 sa ++ [10]))))))) := by
    rw [h3]
    exact matchLit_self _ _
  have h5 : parseIntW (32 :: (decDigits 1 ++ 10 ::
          (litNumber ++ 32 :: (litOf ++ 32 :: (litStrings
          ++ 32 :: 61 :: 32 :: (decDigits sa.length ++ 10 :: (entriesFrom 0 sa ++ [10])))))))
      = (some 1, 10 :: (litNumber ++ 32 :: (litOf ++ 32 :: (litStrings
          ++ 32 :: 61 :: 32 :: (decDigits sa.length ++ 10 :: (entriesFrom 0 sa ++ [10])))))) := by
    unfold parseIntW
    rw [skipWs_cons_of_space 32 _ (by decide),
      skipWs_append_nonspace _ _ (decDigits_ne_nil 1)
        (fun b hb => digit_not_space b (decDigits_mem 1 b hb))]
    exact parseIntCore_decDigits 1 _ (noDigitHead_cons _ _ (by decide))
  simp only [scanVersion, h2, h4, h5]
  rw [skipWs_cons_of_space 10 _ (by decide)]
  rw [skipWs_append_nonspace _ _ (by decide) (by decide)]

theorem scanCount_write (n : Nat) (E : List Nat) :
    scanCount (litNumber ++ 32 :: (litOf ++ 32 :: (litStrings
        ++ 32 :: 61 :: 32 :: (decDigits n ++ 10 :: E))))
      = some ((n : Int), skipWs (10 :: E)) := by
  have m1 : matchLit litNumber (litNumber ++ 32 :: (litOf ++ 32 :: (litStrings
        ++ 32 :: 61 :: 32 :: (decDigits n ++ 10 :: E))))
      = some (32 :: (litOf ++ 32 :: (litStrings
        ++ 32 :: 61 :: 32 :: (decDigits n ++ 10 :: E)))) := matchLit_self _ _
  have s1 : skipWs (32 :: (litOf ++ 32 :: (litStrings
        ++ 32 :: 61 :: 32 :: (decDigits n ++ 10 :: E))))
      = litOf ++ 32 :: (litStrings ++ 32 :: 61 :: 32 :: (decDigits n ++ 10 :: E)) := by
    rw [skipWs_cons_of_space 32 _ (by decide)]
    exact skipWs_append_nonspace _ _ (by decide) (by decide)
  have m2 : matchLit litOf (skipWs (32 :: (litOf ++ 32 :: (litStrings
        ++ 32 :: 61 :: 32 :: (decDigits n ++ 10 :: E)))))
      = some (32 :: (litStrings ++ 32 :: 61 :: 32 :: (decDigits n ++ 10 :: E))) := by
    rw [s1]
    exact matchLit_self _ _
  have s2 : skipWs (32 :: (litStrings ++ 32 :: 61 :: 32 :: (decDigits n ++ 10 :: E)))
      = litStrings ++ 32 :: 61 :: 32 :: (decDigits n ++ 10 :: E) := by
    rw [skipWs_cons_of_space 32 _ (by decide)]
    exact skipWs_append_nonspace _ _ (by decide) (by decide)
  have m3 : matchLit litStrings (skipWs (32 :: (litStrings
        ++ 32 :: 61 :: 32 :: (decDigits n ++ 10 :: E))))
      = some (32 :: 61 :: 32 :: (decDigits n ++ 10 :: E)) := by
    rw [s2]
    exact matchLit_self _ _
  have s3 : skipWs (32 :: 61 :: 32 :: (decDigits n ++ 10 :: E))
      = 61 :: 32 :: (decDigits n ++ 10 :: E) := by
    rw [skipWs_cons_of_space 32 _ (by decide)]
    exact skipWs_cons_of_not _ _ (by decide)
  have m4 : matchLit [61] (skipWs (32 :: 61 :: 32 :: (decDigits n ++ 10 :: E)))
      = some (32 :: (decDigits n ++ 10 :: E)) := by
    rw [s3]
    exact matchLit_self [61] _
  have p1 : parseIntW (32 :: (decDigits n ++ 10 :: E)) = (some (n : Int), 10 :: E) := by
    unfold parseIntW
    rw [skipWs_cons_of_space 32 _ (by decide),
      skipWs_append_nonspace _ _ (decDigits_ne_nil n)
        (fun b hb => digit_not_space b (decDigits_mem n b hb))]
    exact parseIntCore_decDigits n _ (noDigitHead_cons _ _ (by decide))
  simp only [scanCount, m1, m2, m3, m4, p1]

/-- Claim C1: for every representable string array (bytes 1..255, sizes
within `l_int32` range, including empty strings and strings with
embedded newlines), reading back the written stream yields the original
array element-for-element and in order, and writing the result again
yields a byte-identical stream. -/
theorem sarray_write_read_roundtrip (sa : List CStr)
    (hn : sa.length < 2 ^ 31)
    (hs : ∀ s ∈ sa, validStr s ∧ s.length < 2 ^ 31) :
    sarrayReadStream (sarrayWriteStream sa) = some sa
    ∧ ∀ sa2, sarrayReadStream (sarrayWriteStream sa) = some sa2 →
        sarrayWriteStream sa2 = sarrayWriteStream sa := by
  have hread : sarrayReadStream (sarrayWriteStream sa) = some sa := by
    simp only [sarrayReadStream, scanVersion_write, scanCount_write, SARRAY_VERSION_NUMBER,
      Int.toNat_natCast]
    rw [readEntries_skipWs, readEntries_cons_ws 10 (by decide)]
    rw [readEntries_entriesFrom sa (fun x hx => (hs x hx).1) 0 [10] _ _ _ _]
    simp
  refine ⟨hread, fun sa2 h2 => ?_⟩
  rw [hread] at h2
  injection h2 with h
  rw [h]

/-- Witness for C1 at a concrete array containing an empty string and a
string with an embedded newline. -/
theorem sarray_write_read_roundtrip_witness :
    ([[], [97, 10, 98]] : List CStr).length < 2 ^ 31
    ∧ sarrayReadStream (sarrayWriteStream [[], [97, 10, 98]]) = some [[], [97, 10, 98]] :=
  ⟨by decide, (sarray_write_read_roundtrip [[], [97, 10, 98]] (by decide) (by decide)).1⟩
